import Mathlib

/-!
# Verification of the DataCompiler lexer (`src/ast/lexer.rs`)

Shallow embedding of the Rust lexer in `src/ast/lexer.rs`.  The input
string is modelled as a `List Char`; `String::len()` (a byte count in
Rust) is modelled by `byteLen`, the sum of the UTF-8 sizes of the
characters, while `chars().nth(i)` is `List.get? i`, exactly as in the
source, where `current_pos` is used both as a character index (for
`current_char` / `peek_char`) and as a bound against the byte length
(in `consume`).

Loops are modelled with an explicit fuel parameter; a loop that runs
out of fuel returns `none`.  Every entry point supplies
`byteLen input + 1` fuel, which exceeds the number of iterations any
of the loops can perform, since every iteration consumes at least one
character.  `Lexer.skip_whitespace` also returns `none` when the Rust
code would panic: the source evaluates `current_char().unwrap()`
before its bounds check, so reaching end of input inside that loop
aborts the process.

Unicode character classes: `char::is_whitespace` (the Unicode
White_Space property) is a small fixed set and is embedded exactly.
`char::is_alphabetic`, `char::is_alphanumeric` and
`str::to_lowercase` are embedded on their ASCII fragments
(`Char.isAlpha`, `Char.isAlphanum`, `Char.toLower`), where they agree
with the Rust Unicode versions; theorems that quantify over characters
carry an ASCII bound where the class membership matters.
-/

/-- Rust `char::is_whitespace`: the Unicode White_Space property,
embedded exactly (code points 0x09-0x0D, 0x20, 0x85, 0xA0, 0x1680,
0x2000-0x200A, 0x2028, 0x2029, 0x202F, 0x205F, 0x3000). -/
def rustIsWhitespace (c : Char) : Bool :=
  let n := c.toNat
  (0x09 ≤ n && n ≤ 0x0D) || n == 0x20 || n == 0x85 || n == 0xA0 || n == 0x1680 ||
  (0x2000 ≤ n && n ≤ 0x200A) || n == 0x2028 || n == 0x2029 || n == 0x202F ||
  n == 0x205F || n == 0x3000

/-- Rust `char::is_alphabetic` on its ASCII fragment (the letters
`a`-`z`, `A`-`Z`), where it agrees with the Unicode class. -/
def rustIsAlphabetic (c : Char) : Bool := c.isAlpha

/-- Rust `char::is_alphanumeric` on its ASCII fragment (letters and
digits), where it agrees with the Unicode class.  Note that the class
does not contain the underscore. -/
def rustIsAlphanumeric (c : Char) : Bool := c.isAlphanum

/-- Rust `str::to_lowercase` on its ASCII fragment (maps `A`-`Z` to
`a`-`z`), where it agrees with the Unicode mapping. -/
def rustToLowercase (s : String) : String := String.mk (s.data.map Char.toLower)

/-- Rust `String::len()`: the length of the string in bytes, i.e. the
sum of the UTF-8 sizes of its characters. -/
def byteLen (l : List Char) : Nat := (l.map Char.utf8Size).sum

/-- The `TokenKind` enum of the source, all eight variants. -/
inductive TokenKind where
  | Data
  | Literal
  | RightParen
  | LeftParen
  | Equals
  | Eof
  | Bad
  | Error
deriving DecidableEq, Repr

/-- The `TextSpan` struct of the source.  The field `endPos` models the
source field `end` (a Lean keyword). -/
structure TextSpan where
  start : Nat
  endPos : Nat
  line : Nat
  literal : String
deriving DecidableEq, Repr

/-- The `Token` struct of the source. -/
structure Token where
  kind : TokenKind
  span : TextSpan
deriving DecidableEq, Repr

/-- The `Lexer` struct of the source: the owned input plus the cursor
state `current_pos` (a character/byte offset, see the module comment)
and the 1-based `current_line`. -/
structure Lexer where
  input : List Char
  current_pos : Nat
  current_line : Nat
deriving DecidableEq, Repr

/-- `Lexer::new`: cursor at 0, line counter at 1. -/
def Lexer.new (input : List Char) : Lexer := ⟨input, 0, 1⟩

/-- `Lexer::current_char`: `self.input.chars().nth(self.current_pos)`. -/
def Lexer.current_char (lx : Lexer) : Option Char :=
  lx.input.get? lx.current_pos

/-- `Lexer::peek_char`: `self.input.chars().nth(self.current_pos + 1)`. -/
def Lexer.peek_char (lx : Lexer) : Option Char :=
  lx.input.get? (lx.current_pos + 1)

/-- `Lexer::peek_char_by`: `nth(self.current_pos + max(by, 1))` (unused
by the live code, kept for completeness). -/
def Lexer.peek_char_by (lx : Lexer) (by_ : Nat) : Option Char :=
  lx.input.get? (lx.current_pos + max by_ 1)

/-- `Lexer::consume`.  Faithful to the source: if `current_pos` is at or
past the byte length, return `None` and leave the state unchanged;
otherwise, if the character *after* the cursor is a newline, first step
onto it (advancing `current_pos` and `current_line`), then return the
character now at the cursor and advance once more. -/
def Lexer.consume (lx : Lexer) : Option Char × Lexer :=
  if byteLen lx.input ≤ lx.current_pos then (none, lx)
  else
    let lx1 := if lx.peek_char = some '\n'
      then { lx with current_pos := lx.current_pos + 1,
                     current_line := lx.current_line + 1 }
      else lx
    (lx1.current_char, { lx1 with current_pos := lx1.current_pos + 1 })

/-- `Lexer::skip_whitespace`.  The source loop condition is
`self.current_char().unwrap().is_whitespace() && self.current_pos < self.input.len()`:
the `unwrap` runs before the bounds check, so `current_char() == None`
panics; that panic is modelled by `none` (as is fuel exhaustion, which
the supplied fuel rules out). -/
def Lexer.skip_whitespace : Nat → Lexer → Option Lexer
  | 0, _ => none
  | fuel + 1, lx =>
    match lx.current_char with
    | none => none
    | some c =>
      if rustIsWhitespace c && decide (lx.current_pos < byteLen lx.input)
      then Lexer.skip_whitespace fuel (lx.consume).2
      else some lx

/-- The labelled inner loop `'exhaust_comment` of `Lexer::skip_comments`:
consume until a consumed character is a newline or `consume` returns
`None`. -/
def Lexer.exhaust_comment : Nat → Lexer → Option Lexer
  | 0, _ => none
  | fuel + 1, lx =>
    match lx.consume with
    | (none, lx1) => some lx1
    | (some c, lx1) => if c = '\n' then some lx1 else Lexer.exhaust_comment fuel lx1

/-- `Lexer::skip_comments`: while both `current_char` and `peek_char`
exist and form a `//` pair, exhaust the comment line; otherwise stop. -/
def Lexer.skip_comments : Nat → Lexer → Option Lexer
  | 0, _ => none
  | fuel + 1, lx =>
    match lx.current_char, lx.peek_char with
    | some c, some peek =>
      if c = '/' && peek = '/' then
        match Lexer.exhaust_comment (fuel + 1) lx with
        | none => none
        | some lx1 => Lexer.skip_comments fuel lx1
      else some lx
    | _, _ => some lx

/-- Token classification at the two non-error exits of
`Lexer::greedy_tokenize`: `TokenKind::Data` when the buffer lowercases
to `"data"`, else `TokenKind::Literal`; the span is
`(start, self.current_pos, self.current_line, buffer)`. -/
def Lexer.mk_word_token (start : Nat) (lx : Lexer) (buffer : String) : Token :=
  if rustToLowercase buffer = "data"
  then ⟨.Data, ⟨start, lx.current_pos, lx.current_line, buffer⟩⟩
  else ⟨.Literal, ⟨start, lx.current_pos, lx.current_line, buffer⟩⟩

/-- The `while let Some(c) = self.consume()` loop of
`Lexer::greedy_tokenize`: push the consumed character onto the buffer,
then inspect `current_char()`; a non-alphanumeric or absent lookahead
ends the token, and a failing `consume` yields the
`"Literal does not terminate"` error token. -/
def Lexer.greedy_go : Nat → Nat → String → Lexer → Option (Token × Lexer)
  | 0, _, _, _ => none
  | fuel + 1, start, buffer, lx =>
    match lx.consume with
    | (none, lx1) =>
      some (⟨.Error, ⟨start, lx1.current_pos, lx1.current_line,
                      "Literal does not terminate"⟩⟩, lx1)
    | (some c, lx1) =>
      let buffer := buffer.push c
      match lx1.current_char with
      | none => some (Lexer.mk_word_token start lx1 buffer, lx1)
      | some peek =>
        if rustIsAlphanumeric peek
        then Lexer.greedy_go fuel start buffer lx1
        else some (Lexer.mk_word_token start lx1 buffer, lx1)

/-- `Lexer::greedy_tokenize`: buffer initialised to the character the
dispatch loop consumed, `start` captured from `current_pos` at entry. -/
def Lexer.greedy_tokenize (fuel : Nat) (lx : Lexer) (c : Char) :
    Option (Token × Lexer) :=
  Lexer.greedy_go fuel lx.current_pos c.toString lx

/-- The body loop of `Lexer::string_literal_tokenize`: consume until
`consume` fails or the character at the cursor is a `"` (the consumed
characters go into a local buffer the source never uses, so the
embedding drops it). -/
def Lexer.string_literal_go : Nat → Lexer → Option Lexer
  | 0, _ => none
  | fuel + 1, lx =>
    match lx.consume with
    | (none, lx1) => some lx1
    | (some _, lx1) =>
      if lx1.current_char = some '"' then some lx1
      else Lexer.string_literal_go fuel lx1

/-- `Lexer::string_literal_tokenize`: when `is_multi_line` holds,
consume two further delimiter characters, then run the body loop.  The
function returns unit in the source — it pushes no token and discards
its buffer — so the embedding returns only the final lexer state. -/
def Lexer.string_literal_tokenize (fuel : Nat) (lx : Lexer)
    (is_multi_line : Bool) : Option Lexer :=
  if is_multi_line
  then Lexer.string_literal_go fuel ((lx.consume).2.consume).2
  else Lexer.string_literal_go fuel lx

/-- The `while let Some(c) = self.consume()` dispatch loop of
`Lexer::tokenize`.  The source's `=` arm has no `continue`, so after
pushing an `Equals` token the `"` and alphabetic tests still run (both
are false for `=`); the embedding keeps that fall-through structure:
`scanned` is the state after the possible string scan and `rest` the
tokens of the remaining iterations, with the `Equals` token prepended
when `c == '='`. -/
def Lexer.tokenize_loop : Nat → Lexer → Option (List Token)
  | 0, _ => none
  | fuel + 1, lx =>
    match lx.consume with
    | (none, _) => some []
    | (some c, lx1) =>
      if rustIsWhitespace c then Lexer.tokenize_loop fuel lx1
      else if c = '(' then
        Option.map (fun ts =>
          Token.mk .LeftParen
            ⟨lx1.current_pos, lx1.current_pos, lx1.current_line, "("⟩ :: ts)
          (Lexer.tokenize_loop fuel lx1)
      else if c = ')' then
        Option.map (fun ts =>
          Token.mk .RightParen
            ⟨lx1.current_pos, lx1.current_pos, lx1.current_line, ")"⟩ :: ts)
          (Lexer.tokenize_loop fuel lx1)
      else
        let scanned : Option Lexer :=
          if c = '"' then
            Lexer.string_literal_tokenize fuel lx1
              ((lx1.current_char = some '"') || (lx1.peek_char = some '"'))
          else some lx1
        let rest : Option (List Token) :=
          match scanned with
          | none => none
          | some lx2 =>
            if rustIsAlphabetic c then
              match Lexer.greedy_tokenize fuel lx2 c with
              | none => none
              | some (tok, lx3) =>
                Option.map (fun ts => tok :: ts) (Lexer.tokenize_loop fuel lx3)
            else Lexer.tokenize_loop fuel lx2
        if c = '=' then
          Option.map (fun ts =>
            Token.mk .Equals
              ⟨lx1.current_pos, lx1.current_pos, lx1.current_line, "="⟩ :: ts)
            rest
        else rest

/-- `Lexer::tokenize` on a freshly constructed lexer: the initial
length test of the source has an empty body, then `skip_whitespace`
and `skip_comments` run once, then the dispatch loop drains the input.
The result is `none` when the source would panic (the `unwrap` in
`skip_whitespace`); the supplied fuel, `byteLen input + 1`, exceeds
the iteration count of every loop. -/
def Lexer.tokenize (input : List Char) : Option (List Token) :=
  let lx := Lexer.new input
  let fuel := byteLen input + 1
  match Lexer.skip_whitespace fuel lx with
  | none => none
  | some lx1 =>
    match Lexer.skip_comments fuel lx1 with
    | none => none
    | some lx2 => Lexer.tokenize_loop fuel lx2

/-- Number of tokens of a given kind in a token list. -/
def countKind (k : TokenKind) (ts : List Token) : Nat :=
  (ts.filter (fun t => t.kind = k)).length

/-- The substring of the input covered by a span (character slice from
`start` to `endPos`). -/
def spanSlice (input : List Char) (sp : TextSpan) : List Char :=
  (input.take sp.endPos).drop sp.start

/-- Token spans chained in source order: each span starts no earlier
than the running lower bound, is well formed (`start ≤ endPos`), and
the bound advances to its end, so consecutive spans never overlap. -/
def spansChained : Nat → List Token → Bool
  | _, [] => true
  | lo, t :: ts =>
    decide (lo ≤ t.span.start) && decide (t.span.start ≤ t.span.endPos) &&
    spansChained t.span.endPos ts

/-- Shape of the single-character tokens of the dispatch loop: a
`LeftParen`, `RightParen` or `Equals` token has a zero-length span
(`start = endPos`, both the cursor position after the character was
consumed) while its literal holds the one character. -/
def singleCharShape (t : Token) : Prop :=
  (t.kind = .LeftParen → t.span.start = t.span.endPos ∧ t.span.literal = "(") ∧
  (t.kind = .RightParen → t.span.start = t.span.endPos ∧ t.span.literal = ")") ∧
  (t.kind = .Equals → t.span.start = t.span.endPos ∧ t.span.literal = "=")

/-! ## Basic facts about the cursor primitives -/

/-- ASCII characters occupy one UTF-8 byte, so on ASCII input the byte
length used by `consume` coincides with the character count. -/
theorem utf8Size_ascii (c : Char) (h : c.toNat ≤ 127) : c.utf8Size = 1 := by
  unfold Char.utf8Size
  rw [if_pos]
  exact h

/-- Consuming never moves the cursor backwards. -/
theorem Lexer.consume_pos_mono (lx : Lexer) :
    lx.current_pos ≤ ((lx.consume).2).current_pos := by
  by_cases h1 : byteLen lx.input ≤ lx.current_pos
  · simp [Lexer.consume, h1]
  · by_cases h2 : lx.peek_char = some '\n'
    · simp [Lexer.consume, h1, h2]
      omega
    · simp [Lexer.consume, h1, h2]

/-- Pair form of `consume_pos_mono`. -/
theorem Lexer.consume_mono {lx lx1 : Lexer} {o : Option Char}
    (h : lx.consume = (o, lx1)) : lx.current_pos ≤ lx1.current_pos := by
  have hm := Lexer.consume_pos_mono lx
  rw [h] at hm
  exact hm

/-- The string-body loop never moves the cursor backwards. -/
theorem Lexer.string_literal_go_mono :
    ∀ fuel (lx lx' : Lexer), Lexer.string_literal_go fuel lx = some lx' →
      lx.current_pos ≤ lx'.current_pos := by
  intro fuel
  induction fuel with
  | zero => intro lx lx' h; simp [Lexer.string_literal_go] at h
  | succ fuel ih =>
    intro lx lx' h
    rw [Lexer.string_literal_go] at h
    split at h
    · rename_i lxm heq
      simp only [Option.some.injEq] at h
      subst h
      exact Lexer.consume_mono heq
    · rename_i c lxm heq
      split at h
      · simp only [Option.some.injEq] at h
        subst h
        exact Lexer.consume_mono heq
      · exact Nat.le_trans (Lexer.consume_mono heq) (ih _ _ h)

/-- The string scanner never moves the cursor backwards. -/
theorem Lexer.string_literal_tokenize_mono {fuel : Nat} {lx lx' : Lexer}
    {b : Bool} (h : Lexer.string_literal_tokenize fuel lx b = some lx') :
    lx.current_pos ≤ lx'.current_pos := by
  unfold Lexer.string_literal_tokenize at h
  cases b with
  | false => exact Lexer.string_literal_go_mono _ _ _ h
  | true =>
    simp only [if_pos] at h
    have h1 := Lexer.consume_pos_mono lx
    have h2 := Lexer.consume_pos_mono (lx.consume).2
    exact Nat.le_trans h1 (Nat.le_trans h2 (Lexer.string_literal_go_mono _ _ _ h))

/-- Shape of the span of a classified identifier token. -/
theorem Lexer.mk_word_token_span (start : Nat) (lx : Lexer) (buf : String) :
    (Lexer.mk_word_token start lx buf).span =
      ⟨start, lx.current_pos, lx.current_line, buf⟩ := by
  unfold Lexer.mk_word_token
  split <;> rfl

/-- A classified identifier token is `Data` or `Literal`, by the
case-insensitive comparison with `"data"`. -/
theorem Lexer.mk_word_token_kind (start : Nat) (lx : Lexer) (buf : String) :
    ((Lexer.mk_word_token start lx buf).kind = .Data ∧
       rustToLowercase buf = "data") ∨
    ((Lexer.mk_word_token start lx buf).kind = .Literal ∧
       rustToLowercase buf ≠ "data") := by
  unfold Lexer.mk_word_token
  split
  · exact Or.inl ⟨rfl, by assumption⟩
  · exact Or.inr ⟨rfl, by assumption⟩

/-- Every result of the identifier loop: the span starts at the given
`start`, ends at the final cursor, the cursor never moves backwards,
and the kind is `Data`, `Literal` or `Error`, with the `Data`/`Literal`
choice decided by lowercasing the token's literal. -/
theorem Lexer.greedy_go_spec :
    ∀ fuel start buf (lx : Lexer) tok (lx' : Lexer),
      Lexer.greedy_go fuel start buf lx = some (tok, lx') →
      tok.span.start = start ∧ tok.span.endPos = lx'.current_pos ∧
      lx.current_pos ≤ lx'.current_pos ∧
      (tok.kind = .Data ∨ tok.kind = .Literal ∨ tok.kind = .Error) ∧
      (tok.kind = .Data → rustToLowercase tok.span.literal = "data") ∧
      (tok.kind = .Literal → rustToLowercase tok.span.literal ≠ "data") := by
  intro fuel
  induction fuel with
  | zero => intro start buf lx tok lx' h; simp [Lexer.greedy_go] at h
  | succ fuel ih =>
    intro start buf lx tok lx' h
    have hword : ∀ (lxm : Lexer) (w : String), lx.consume.2 = lxm →
        Lexer.mk_word_token start lxm w = tok → lxm = lx' →
        tok.span.start = start ∧ tok.span.endPos = lx'.current_pos ∧
        lx.current_pos ≤ lx'.current_pos ∧
        (tok.kind = .Data ∨ tok.kind = .Literal ∨ tok.kind = .Error) ∧
        (tok.kind = .Data → rustToLowercase tok.span.literal = "data") ∧
        (tok.kind = .Literal → rustToLowercase tok.span.literal ≠ "data") := by
      intro lxm w hm hw hlx
      subst hw
      subst hlx
      have hmono : lx.current_pos ≤ lxm.current_pos := by
        have := Lexer.consume_pos_mono lx
        rw [hm] at this
        exact this
      have hsp := Lexer.mk_word_token_span start lxm w
      rcases Lexer.mk_word_token_kind start lxm w with ⟨hk, hlow⟩ | ⟨hk, hlow⟩
      · refine ⟨by rw [hsp], by rw [hsp], hmono, Or.inl hk, ?_, ?_⟩
        · intro _; rw [hsp]; exact hlow
        · intro hlit; rw [hk] at hlit; cases hlit
      · refine ⟨by rw [hsp], by rw [hsp], hmono, Or.inr (Or.inl hk), ?_, ?_⟩
        · intro hdat; rw [hk] at hdat; cases hdat
        · intro _; rw [hsp]; exact hlow
    rw [Lexer.greedy_go] at h
    split at h
    · rename_i lxm heq
      simp only [Option.some.injEq, Prod.mk.injEq] at h
      obtain ⟨rfl, rfl⟩ := h
      refine ⟨rfl, rfl, Lexer.consume_mono heq, Or.inr (Or.inr rfl), ?_, ?_⟩ <;>
        intro hk <;> cases hk
    · rename_i c lxm heq
      split at h
      · rename_i hcc
        simp only [Option.some.injEq, Prod.mk.injEq] at h
        exact hword lxm _ (by rw [heq]) h.1 h.2
      · rename_i peek hcc
        split at h
        · have hrec := ih start (buf.push c) lxm tok lx' h
          exact ⟨hrec.1, hrec.2.1,
            Nat.le_trans (Lexer.consume_mono heq) hrec.2.2.1, hrec.2.2.2⟩
        · simp only [Option.some.injEq, Prod.mk.injEq] at h
          exact hword lxm _ (by rw [heq]) h.1 h.2

/-- Chaining is monotone in the lower bound. -/
theorem spansChained_weaken :
    ∀ {lo lo' : Nat} {ts : List Token}, lo' ≤ lo →
      spansChained lo ts = true → spansChained lo' ts = true := by
  intro lo lo' ts
  cases ts with
  | nil => intro _ _; rfl
  | cons t ts =>
    intro hle hch
    simp only [spansChained, Bool.and_eq_true, decide_eq_true_eq] at hch ⊢
    exact ⟨⟨Nat.le_trans hle hch.1.1, hch.1.2⟩, hch.2⟩

/-- A token whose kind is `Data`, `Literal` or `Error` trivially has the
single-character shape (all three implications are vacuous). -/
theorem singleCharShape_of_kind (t : Token)
    (h : t.kind = .Data ∨ t.kind = .Literal ∨ t.kind = .Error) :
    singleCharShape t := by
  refine ⟨?_, ?_, ?_⟩ <;> intro hk <;>
    rcases h with h | h | h <;> rw [h] at hk <;> cases hk

/-- Tokens produced by the dispatch loop: spans are chained in source
order starting from the cursor position at entry, and every token has
the single-character shape property. -/
theorem Lexer.tokenize_loop_spec :
    ∀ fuel (lx : Lexer) toks, Lexer.tokenize_loop fuel lx = some toks →
      spansChained lx.current_pos toks = true ∧
      ∀ t ∈ toks, singleCharShape t := by
  intro fuel
  induction fuel with
  | zero => intro lx toks h; simp [Lexer.tokenize_loop] at h
  | succ fuel ih =>
    intro lx toks h
    rw [Lexer.tokenize_loop] at h
    split at h
    · simp only [Option.some.injEq] at h
      subst h
      exact ⟨rfl, by intro t ht; cases ht⟩
    · rename_i c lx1 heq
      have hm1 : lx.current_pos ≤ lx1.current_pos := Lexer.consume_mono heq
      dsimp only at h
      split at h
      · obtain ⟨hch, hmem⟩ := ih _ _ h
        exact ⟨spansChained_weaken hm1 hch, hmem⟩
      · split at h
        · obtain ⟨ts, hts, hcons⟩ := Option.map_eq_some'.mp h
          subst hcons
          obtain ⟨hch, hmem⟩ := ih _ _ hts
          constructor
          · simp only [spansChained, Bool.and_eq_true, decide_eq_true_eq]
            exact ⟨⟨hm1, Nat.le_refl _⟩, hch⟩
          · intro t ht
            rcases List.mem_cons.mp ht with rfl | ht
            · exact ⟨fun _ => ⟨rfl, rfl⟩, fun hk => by simp at hk,
                fun hk => by simp at hk⟩
            · exact hmem t ht
        · split at h
          · obtain ⟨ts, hts, hcons⟩ := Option.map_eq_some'.mp h
            subst hcons
            obtain ⟨hch, hmem⟩ := ih _ _ hts
            constructor
            · simp only [spansChained, Bool.and_eq_true, decide_eq_true_eq]
              exact ⟨⟨hm1, Nat.le_refl _⟩, hch⟩
            · intro t ht
              rcases List.mem_cons.mp ht with rfl | ht
              · exact ⟨fun hk => by simp at hk, fun _ => ⟨rfl, rfl⟩,
                  fun hk => by simp at hk⟩
              · exact hmem t ht
          · rcases hscan : (if c = '"' then
                Lexer.string_literal_tokenize fuel lx1
                  ((lx1.current_char = some '"') || (lx1.peek_char = some '"'))
              else some lx1) with _ | lx2
            · rw [hscan] at h
              dsimp only at h
              split at h <;> simp at h
            · rw [hscan] at h
              dsimp only at h
              have hm2 : lx1.current_pos ≤ lx2.current_pos := by
                split at hscan
                · exact Lexer.string_literal_tokenize_mono hscan
                · simp only [Option.some.injEq] at hscan
                  subst hscan
                  exact Nat.le_refl _
              split at h
              · -- c = '=' : an Equals token is prepended
                split at h
                · -- alphabetic path
                  rcases hg : Lexer.greedy_tokenize fuel lx2 c with _ | ⟨tok, lx3⟩
                  · rw [hg] at h
                    simp at h
                  · rw [hg] at h
                    have hg' : Lexer.greedy_go fuel lx2.current_pos c.toString lx2 =
                        some (tok, lx3) := hg
                    obtain ⟨hstart, hend, hm3, hkind, -, -⟩ :=
                      Lexer.greedy_go_spec fuel lx2.current_pos c.toString lx2 tok lx3 hg'
                    dsimp only at h
                    obtain ⟨ts1, hts1, hcons1⟩ := Option.map_eq_some'.mp h
                    obtain ⟨ts, hts, hcons⟩ := Option.map_eq_some'.mp hts1
                    subst hcons1
                    subst hcons
                    obtain ⟨hch, hmem⟩ := ih _ _ hts
                    constructor
                    · simp only [spansChained, Bool.and_eq_true, decide_eq_true_eq]
                      rw [hstart, hend]
                      refine ⟨⟨hm1, Nat.le_refl _⟩, ⟨Nat.le_trans hm2 (Nat.le_refl _), hm3⟩, ?_⟩
                      rw [← hend]
                      rw [hend]
                      exact hch
                    · intro t ht
                      rcases List.mem_cons.mp ht with rfl | ht
                      · exact ⟨fun hk => by simp at hk, fun hk => by simp at hk,
                          fun _ => ⟨rfl, rfl⟩⟩
                      · rcases List.mem_cons.mp ht with rfl | ht
                        · exact singleCharShape_of_kind t hkind
                        · exact hmem t ht
                · obtain ⟨ts, hts, hcons⟩ := Option.map_eq_some'.mp h
                  subst hcons
                  obtain ⟨hch, hmem⟩ := ih _ _ hts
                  constructor
                  · simp only [spansChained, Bool.and_eq_true, decide_eq_true_eq]
                    exact ⟨⟨hm1, Nat.le_refl _⟩, spansChained_weaken hm2 hch⟩
                  · intro t ht
                    rcases List.mem_cons.mp ht with rfl | ht
                    · exact ⟨fun hk => by simp at hk, fun hk => by simp at hk,
                        fun _ => ⟨rfl, rfl⟩⟩
                    · exact hmem t ht
              · -- c ≠ '='
                split at h
                · rcases hg : Lexer.greedy_tokenize fuel lx2 c with _ | ⟨tok, lx3⟩
                  · rw [hg] at h
                    simp at h
                  · rw [hg] at h
                    have hg' : Lexer.greedy_go fuel lx2.current_pos c.toString lx2 =
                        some (tok, lx3) := hg
                    obtain ⟨hstart, hend, hm3, hkind, -, -⟩ :=
                      Lexer.greedy_go_spec fuel lx2.current_pos c.toString lx2 tok lx3 hg'
                    dsimp only at h
                    obtain ⟨ts, hts, hcons⟩ := Option.map_eq_some'.mp h
                    subst hcons
                    obtain ⟨hch, hmem⟩ := ih _ _ hts
                    constructor
                    · simp only [spansChained, Bool.and_eq_true, decide_eq_true_eq]
                      rw [hstart, hend]
                      refine ⟨⟨Nat.le_trans hm1 hm2, hm3⟩, ?_⟩
                      rw [← hend]
                      rw [hend]
                      exact hch
                    · intro t ht
                      rcases List.mem_cons.mp ht with rfl | ht
                      · exact singleCharShape_of_kind t hkind
                      · exact hmem t ht
                · obtain ⟨hch, hmem⟩ := ih _ _ h
                  exact ⟨spansChained_weaken (Nat.le_trans hm1 hm2) hch, hmem⟩

/-- Bridge from `tokenize` to the dispatch-loop invariants: any
successful tokenization has chained spans and single-character-shaped
parenthesis/equals tokens. -/
theorem Lexer.tokenize_spec {input : List Char} {toks : List Token}
    (h : Lexer.tokenize input = some toks) :
    spansChained 0 toks = true ∧ ∀ t ∈ toks, singleCharShape t := by
  unfold Lexer.tokenize at h
  dsimp only at h
  split at h
  · exact Option.noConfusion h
  · split at h
    · exact Option.noConfusion h
    · obtain ⟨hch, hmem⟩ := Lexer.tokenize_loop_spec _ _ _ h
      exact ⟨spansChained_weaken (Nat.zero_le _) hch, hmem⟩

/-! ## Claims -/

/-- C1, counterexample: the input `"""multi⏎line"""` (with a real
newline) produces no `Literal` token at all (and no `Error` token),
not the one `Literal` token with content `multi⏎line` the claim
asserts. -/
theorem C1_counterexample :
    countKind .Literal ((Lexer.tokenize ("\"\"\"multi\nline\"\"\"".toList)).getD []) = 0 ∧
    countKind .Error ((Lexer.tokenize ("\"\"\"multi\nline\"\"\"".toList)).getD []) = 0 := by
  decide

/-- C1, amended: the quoted-string scanner consumes the delimiters and
body but pushes no token (its buffer is discarded), so tokenizing
`"""multi⏎line"""` yields the empty token sequence. -/
theorem C1_amended :
    Lexer.tokenize ("\"\"\"multi\nline\"\"\"".toList) = some [] := by
  decide

/-- C2, counterexample: the input `#` yields no `Error` token (the
dispatch loop has no arm for unrecognized characters), not the one
`Error` token with diagnostic `Unexpected character` the claim
asserts. -/
theorem C2_counterexample :
    countKind .Error ((Lexer.tokenize ['#']).getD []) = 0 ∧
    Lexer.tokenize ['#'] = some [] := by
  decide

/-- C2, amended: an ASCII character matching no recognized rule (not
whitespace, not a parenthesis, equals sign or quote, not alphabetic)
is silently consumed: the scanner advances one character and emits no
token, so a single such character tokenizes to the empty sequence. -/
theorem C2_amended (c : Char) (hascii : c.toNat ≤ 127)
    (hws : rustIsWhitespace c = false) (halpha : rustIsAlphabetic c = false)
    (hlp : c ≠ '(') (hrp : c ≠ ')') (heq : c ≠ '=') (hquot : c ≠ '"') :
    Lexer.tokenize [c] = some [] := by
  have hb : byteLen [c] = 1 := by
    simp [byteLen, utf8Size_ascii c hascii]
  have h3 : Lexer.consume (Lexer.new [c]) = (some c, ⟨[c], 1, 1⟩) := by
    simp [Lexer.consume, Lexer.new, Lexer.peek_char, Lexer.current_char, hb]
  have h4 : Lexer.consume ⟨[c], 1, 1⟩ = (none, ⟨[c], 1, 1⟩) := by
    simp [Lexer.consume, hb]
  have h5 : Lexer.tokenize_loop 1 ⟨[c], 1, 1⟩ = some [] := by
    rw [Lexer.tokenize_loop, h4]
  have h6 : Lexer.tokenize_loop (byteLen [c] + 1) (Lexer.new [c]) = some [] := by
    rw [Lexer.tokenize_loop, h3]
    dsimp only
    rw [hb]
    simp [hws, hlp, hrp, heq, hquot, halpha, h5]
  have h1 : Lexer.skip_whitespace (byteLen [c] + 1) (Lexer.new [c]) =
      some (Lexer.new [c]) := by
    rw [Lexer.skip_whitespace]
    simp [Lexer.new, Lexer.current_char, hws]
  have h2 : Lexer.skip_comments (byteLen [c] + 1) (Lexer.new [c]) =
      some (Lexer.new [c]) := by
    rw [Lexer.skip_comments]
    simp [Lexer.new, Lexer.current_char, Lexer.peek_char]
  unfold Lexer.tokenize
  dsimp only
  rw [h1]
  dsimp only
  rw [h2]
  dsimp only
  exact h6

/-- C2, witness: the amended claim at the concrete input `#`. -/
theorem C2_amended_witness : Lexer.tokenize ['#'] = some [] :=
  C2_amended '#' (by decide) (by decide) (by decide) (by decide) (by decide)
    (by decide) (by decide)

/-- C3, code bug: `tokenize` panics (modelled by `none`) on the empty
input and on input consisting of a single space, because
`skip_whitespace` evaluates `current_char().unwrap()` before its
bounds check; the `none` results persist with fuel 1000, showing they
are the modelled panic and not fuel exhaustion. -/
theorem C3_panic :
    Lexer.tokenize [] = none ∧ Lexer.tokenize [' '] = none ∧
    Lexer.skip_whitespace 1000 ⟨[], 0, 1⟩ = none ∧
    Lexer.skip_whitespace 1000 ⟨[' '], 0, 1⟩ = none := by
  decide

/-- C4, counterexample: the single-quote string `"abc⏎def"` containing
a raw newline produces no `Error` token (and no token at all), not the
one `Error` token with diagnostic `Unterminated string` the claim
asserts (that message does not occur in the lexer). -/
theorem C4_counterexample :
    countKind .Error ((Lexer.tokenize ("\"abc\ndef\"".toList)).getD []) = 0 ∧
    ((Lexer.tokenize ("\"abc\ndef\"".toList)).getD []).length = 0 := by
  decide

/-- C4, amended: a single-quote string body reaching a raw newline is
consumed without any diagnostic: the string scanner runs through the
newline and emits nothing, so the input tokenizes to the empty
sequence. -/
theorem C4_amended :
    Lexer.tokenize ("\"abc\ndef\"".toList) = some [] := by
  decide

/-- C5, counterexample: with input `a⏎` and the cursor on `a`,
`consume()` returns the following newline (not the character `a` at
the cursor) and advances the cursor by two; and with input `⏎a`,
consuming the newline at the cursor leaves the line counter at 1 (no
increment), refuting both the advance-by-one and the
once-per-newline-consumed parts of the claim. -/
theorem C5_counterexample :
    (Lexer.consume ⟨['a', '\n'], 0, 1⟩).1 = some '\n' ∧
    Lexer.current_char ⟨['a', '\n'], 0, 1⟩ = some 'a' ∧
    (Lexer.consume ⟨['a', '\n'], 0, 1⟩).2.current_pos = 2 ∧
    (Lexer.consume ⟨['\n', 'a'], 0, 1⟩).1 = some '\n' ∧
    (Lexer.consume ⟨['\n', 'a'], 0, 1⟩).2.current_line = 1 := by
  decide

/-- C5, amended: `consume()` at end of input (cursor at or past the
byte length) returns nothing and leaves the state unchanged; otherwise,
when the character after the cursor is not a newline it returns the
character at the cursor and advances by exactly one with the line
counter untouched, and when the character after the cursor is a
newline it skips the character at the cursor, returns that newline,
advances the cursor by two and increments the line counter once — so
the line counter increments on stepping over a newline in lookahead
position, not once per newline consumed. -/
theorem C5_amended (lx : Lexer) :
    (byteLen lx.input ≤ lx.current_pos → lx.consume = (none, lx)) ∧
    (lx.current_pos < byteLen lx.input → lx.peek_char ≠ some '\n' →
      lx.consume = (lx.current_char, ⟨lx.input, lx.current_pos + 1, lx.current_line⟩)) ∧
    (lx.current_pos < byteLen lx.input → lx.peek_char = some '\n' →
      lx.consume = (some '\n', ⟨lx.input, lx.current_pos + 2, lx.current_line + 1⟩)) := by
  refine ⟨?_, ?_, ?_⟩
  · intro h
    simp [Lexer.consume, h]
  · intro h hp
    have h' := Nat.not_le.mpr h
    simp [Lexer.consume, h', hp]
  · intro h hp
    have h' := Nat.not_le.mpr h
    have hp' : lx.input.get? (lx.current_pos + 1) = some '\n' := hp
    simp [Lexer.consume, h', hp, Lexer.current_char, hp']
    rw [← List.get?_eq_getElem?]
    exact hp'

/-- C5, witness: the amended claim's newline-lookahead case at a
concrete state. -/
theorem C5_amended_witness :
    Lexer.consume ⟨['a', '\n'], 0, 1⟩ = (some '\n', ⟨['a', '\n'], 2, 2⟩) :=
  (C5_amended ⟨['a', '\n'], 0, 1⟩).2.2 (by decide) (by decide)

/-- C6, counterexample: the identifier scanner does not consume a
maximal run of alphanumeric-or-underscore characters: on input
`ab_cd` it stops at the underscore seen in lookahead position and the
input produces two `Literal` tokens `ab` and `cd`, not a single token
for the whole run. -/
theorem C6_counterexample :
    Lexer.tokenize ("ab_cd".toList) =
      some [⟨.Literal, ⟨1, 2, 1, "ab"⟩⟩, ⟨.Literal, ⟨4, 5, 1, "cd"⟩⟩] ∧
    ((Lexer.tokenize ("ab_cd".toList)).getD []).length ≠ 1 := by
  decide

/-- C6, amended: starting at an alphabetic character the scanner
unconditionally consumes one further character and then continues only
while the lookahead character is alphanumeric (underscore does not
extend a run); classification is case-insensitive — a buffer
lowercasing to `data` yields a `Data` token and anything else a
`Literal` token — and the literal preserves the original casing, so
`data`, `Data` and `DATA` each produce a single `Data` token spelled
as written. -/
theorem C6_amended :
    Lexer.tokenize ("data".toList) = some [⟨.Data, ⟨1, 4, 1, "data"⟩⟩] ∧
    Lexer.tokenize ("Data".toList) = some [⟨.Data, ⟨1, 4, 1, "Data"⟩⟩] ∧
    Lexer.tokenize ("DATA".toList) = some [⟨.Data, ⟨1, 4, 1, "DATA"⟩⟩] ∧
    (∀ fuel start buf (lx : Lexer) tok (lx' : Lexer),
      Lexer.greedy_go fuel start buf lx = some (tok, lx') →
      (tok.kind = .Data → rustToLowercase tok.span.literal = "data") ∧
      (tok.kind = .Literal → rustToLowercase tok.span.literal ≠ "data")) := by
  refine ⟨by decide, by decide, by decide, ?_⟩
  intro fuel start buf lx tok lx' h
  exact (Lexer.greedy_go_spec fuel start buf lx tok lx' h).2.2.2.2

/-- C6, witness: the amended claim's classification component at the
concrete run that scans `data`. -/
theorem C6_amended_witness :
    ((⟨.Data, ⟨1, 4, 1, "data"⟩⟩ : Token).kind = .Data →
      rustToLowercase (⟨.Data, ⟨1, 4, 1, "data"⟩⟩ : Token).span.literal = "data") ∧
    ((⟨.Data, ⟨1, 4, 1, "data"⟩⟩ : Token).kind = .Literal →
      rustToLowercase (⟨.Data, ⟨1, 4, 1, "data"⟩⟩ : Token).span.literal ≠ "data") :=
  C6_amended.2.2.2 5 1 "d" ⟨"data".toList, 1, 1⟩ ⟨.Data, ⟨1, 4, 1, "data"⟩⟩
    ⟨"data".toList, 4, 1⟩ (by decide)

/-- C7, counterexample: a `//` pair reached by the dispatch loop (after
the initial skip) is not treated as a comment: on input `(//ab` the
characters of the comment are scanned as ordinary input and the
alphabetic comment text `ab` is emitted as a `Literal` token, so a
token is emitted for characters of the comment. -/
theorem C7_counterexample :
    Lexer.tokenize ("(//ab".toList) =
      some [⟨.LeftParen, ⟨1, 1, 1, "("⟩⟩, ⟨.Literal, ⟨4, 5, 1, "ab"⟩⟩] ∧
    countKind .Literal ((Lexer.tokenize ("(//ab".toList)).getD []) ≠ 0 := by
  decide

/-- C7, amended: comments are elided only by the single `skip_comments`
pass that runs before the dispatch loop, which consumes consecutive
`//` lines at the very start of the input without emitting tokens
(`//x⏎data` yields exactly the `Data` token on line 2, and
`//a⏎//b⏎data` exactly the `Data` token on line 3); the dispatch loop
itself never recognizes `//`. -/
theorem C7_amended :
    Lexer.tokenize ("//x\ndata".toList) = some [⟨.Data, ⟨5, 8, 2, "data"⟩⟩] ∧
    Lexer.tokenize ("//a\n//b\ndata".toList) = some [⟨.Data, ⟨9, 12, 3, "data"⟩⟩] := by
  exact ⟨by decide, by decide⟩

/-- C8, counterexample: spans do not partition the input: on input `(`
the only token carries the zero-length span (1, 1), whose slice of the
input is empty although the input is not, and the input contains no
whitespace or comments that the claim would allow to be skipped, so
concatenating span substrings cannot reconstruct the input. -/
theorem C8_counterexample :
    Lexer.tokenize ['('] = some [⟨.LeftParen, ⟨1, 1, 1, "("⟩⟩] ∧
    spanSlice ['('] ⟨1, 1, 1, "("⟩ = [] ∧
    ['('] ≠ ([] : List Char) := by
  decide

/-- C8, amended: the spans of the tokens returned by `tokenize` are
chained in source order — every span has `start ≤ endPos`, spans appear
in nondecreasing position order and no span overlaps another — but
they do not partition the input (single-character tokens carry
zero-length spans and identifier spans omit the first character of the
run). -/
theorem C8_amended (input : List Char) (toks : List Token)
    (h : Lexer.tokenize input = some toks) : spansChained 0 toks = true :=
  (Lexer.tokenize_spec h).1

/-- C8, witness: the amended claim at the concrete input `data`. -/
theorem C8_amended_witness :
    spansChained 0 [Token.mk .Data ⟨1, 4, 1, "data"⟩] = true :=
  C8_amended ("data".toList) [Token.mk .Data ⟨1, 4, 1, "data"⟩] (by decide)

/-- C9, confirmed: every `LeftParen`, `RightParen` or `Equals` token
emitted by `tokenize` has a zero-length span (`start = endPos`, both
the cursor position after the character was consumed) whose literal
still holds the one character; concretely, the inputs `(`, `)` and `=`
each yield their token with span (1, 1) — which does not cover the
character's own offset 0 — and literal `(`, `)`, `=` respectively. -/
theorem C9_single_char_spans :
    (∀ input toks, Lexer.tokenize input = some toks →
      ∀ t ∈ toks, singleCharShape t) ∧
    Lexer.tokenize ['('] = some [⟨.LeftParen, ⟨1, 1, 1, "("⟩⟩] ∧
    Lexer.tokenize [')'] = some [⟨.RightParen, ⟨1, 1, 1, ")"⟩⟩] ∧
    Lexer.tokenize ['='] = some [⟨.Equals, ⟨1, 1, 1, "="⟩⟩] := by
  refine ⟨?_, by decide, by decide, by decide⟩
  intro input toks h t ht
  exact (Lexer.tokenize_spec h).2 t ht

/-- C9, witness: the general component at the token of input `(`. -/
theorem C9_single_char_spans_witness :
    singleCharShape (Token.mk .LeftParen ⟨1, 1, 1, "("⟩) :=
  C9_single_char_spans.1 ['('] [Token.mk .LeftParen ⟨1, 1, 1, "("⟩] (by decide)
    (Token.mk .LeftParen ⟨1, 1, 1, "("⟩) (by decide)

/-- C10, counterexample: the input `b a`, whose final character is a
lone alphabetic character with no alphanumeric character before it in
its run, produces a single `Literal` token `b a` and no `Error` token:
the identifier scanner entered at `b` blindly consumes the space, sees
the alphanumeric lookahead `a`, and absorbs the final letter into one
buffer, so the claimed `Literal does not terminate` error never
arises. -/
theorem C10_counterexample :
    Lexer.tokenize ("b a".toList) = some [⟨.Literal, ⟨1, 3, 1, "b a"⟩⟩] ∧
    countKind .Error ((Lexer.tokenize ("b a".toList)).getD []) = 0 := by
  decide

/-- C10, amended: the `Literal does not terminate` error token arises
exactly when the identifier scanner is entered with the cursor already
at end of input (its unconditional first `consume` fails), not for
every input ending in a lone alphabetic character — a preceding
identifier run can swallow an intervening non-alphanumeric character
and absorb the final letter instead.  When the scanner is entered at
end of input it returns an `Error` token with literal
`Literal does not terminate` — not a `Literal` token — spanning the
current cursor position; concretely the inputs `a` and `(a` end in
exactly that `Error` token. -/
theorem C10_eof_identifier_error :
    (∀ fuel start buf (lx : Lexer), byteLen lx.input ≤ lx.current_pos →
      Lexer.greedy_go (fuel + 1) start buf lx =
        some (⟨.Error, ⟨start, lx.current_pos, lx.current_line,
                        "Literal does not terminate"⟩⟩, lx)) ∧
    Lexer.tokenize ['a'] =
      some [⟨.Error, ⟨1, 1, 1, "Literal does not terminate"⟩⟩] ∧
    Lexer.tokenize ['(', 'a'] =
      some [⟨.LeftParen, ⟨1, 1, 1, "("⟩⟩,
            ⟨.Error, ⟨2, 2, 1, "Literal does not terminate"⟩⟩] ∧
    TokenKind.Error ≠ TokenKind.Literal := by
  refine ⟨?_, by decide, by decide, by decide⟩
  intro fuel start buf lx h
  have hc : lx.consume = (none, lx) := by
    simp [Lexer.consume, h]
  rw [Lexer.greedy_go, hc]

/-- C10, witness: the general component at a concrete end-of-input
state. -/
theorem C10_eof_identifier_error_witness :
    Lexer.greedy_go 1 7 "x" ⟨['a'], 1, 1⟩ =
      some (⟨.Error, ⟨7, 1, 1, "Literal does not terminate"⟩⟩, ⟨['a'], 1, 1⟩) :=
  C10_eof_identifier_error.1 0 7 "x" ⟨['a'], 1, 1⟩ (by decide)
